import Mathlib

/- Verification development for the ILCS scraper (src/ilcs-scrape.py).

   The embedding models strings as lists of characters and reproduces the
   Python semantics the source relies on explicitly: slicing with negative
   end indices, str.find returning -1, str.strip over Unicode whitespace
   (restricted to the characters occurring in these documents), regex
   searches of the concrete patterns the source compiles, and the
   BeautifulSoup document tree operations (get_text, find by string,
   previous_siblings) over an explicit HTML node type.  The HTTP layer is
   a parameter: a fetch map from request paths to an optional document,
   mirroring _request_util returning a response or None. -/

namespace IlcsScrape

/-! ## Python string primitives -/

/-- Python str.isspace, restricted to the whitespace characters occurring in
    these documents: ASCII whitespace plus the non-breaking space U+00A0.
    Python str.strip and str.split use this predicate, and the regex class
    backslash-s matches the same characters under the default Unicode mode. -/
def pyIsSpace (c : Char) : Bool :=
  c = ' ' || c = '\t' || c = '\n' || c = '\r' || c = '\x0b' || c = '\x0c' || c = '\u00A0'

/-- Python str.strip with no argument. -/
def pyStrip (l : List Char) : List Char :=
  ((l.dropWhile pyIsSpace).reverse.dropWhile pyIsSpace).reverse

/-- Auxiliary for splitting on a single separator character. -/
def splitChAux (sep : Char) : List Char → List Char → List (List Char)
  | acc, [] => [acc.reverse]
  | acc, c :: t =>
    if c = sep then acc.reverse :: splitChAux sep [] t else splitChAux sep (c :: acc) t

/-- Python str.split with a one-character separator (keeps empty pieces). -/
def splitCh (sep : Char) (l : List Char) : List (List Char) :=
  splitChAux sep [] l

/-- Lines of a flattened text, as produced by str.split applied at a newline. -/
def splitNl (l : List Char) : List (List Char) :=
  splitCh '\n' l

/-- First index at or beyond i where sub occurs in the remaining list. -/
def subFindAux (sub : List Char) : List Char → Nat → Option Nat
  | [], i => if sub.isPrefixOf ([] : List Char) then some i else none
  | l@(_ :: t), i => if sub.isPrefixOf l then some i else subFindAux sub t (i + 1)

/-- Python str.find with a start position: the absolute index of the first
    occurrence at or beyond start, or -1. -/
def pyFind (s sub : List Char) (start : Nat) : Int :=
  match subFindAux sub (s.drop start) start with
  | some i => (i : Int)
  | none => -1

/-- Python substring containment, the `in` operator. -/
def occursTok (hay sub : List Char) : Bool :=
  (subFindAux sub hay 0).isSome

/-- Python slice s[a:b] where a is a nonnegative index and b may be negative
    (counted from the end of the string), exactly as parse_filestring uses it. -/
def pySliceNeg (s : List Char) (a : Nat) (b : Int) : List Char :=
  let stop : Nat := if b < 0 then s.length - (-b).toNat else min b.toNat s.length
  (s.take stop).drop a

/-- The text after the first occurrence of sub: Python split(sub, 1)[1].  The
    source only evaluates this under an `in` guard, so the not-found branch
    (returning the whole text) is never reached there. -/
def afterFirstTok (sub s : List Char) : List Char :=
  match subFindAux sub s 0 with
  | some i => s.drop (i + sub.length)
  | none => s

/-- The tail after the first occurrence of a single character, if any. -/
def afterFirstChar (ch : Char) : List Char → Option (List Char)
  | [] => none
  | c :: t => if c = ch then some t else afterFirstChar ch t

/-- A run of n space characters, Python ' ' * n. -/
def spacesN (n : Nat) : List Char :=
  List.replicate n ' '

/-- Python str.replace of the non-breaking space by an ordinary space. -/
def replaceNbsp (l : List Char) : List Char :=
  l.map fun c => if c = '\u00A0' then ' ' else c

/-- Newline join, Python separator.join with separator a newline. -/
def intercalateNl : List (List Char) → List Char
  | [] => []
  | [x] => x
  | x :: y :: ys => x ++ '\n' :: intercalateNl (y :: ys)

/-- Python str.split with no argument: the maximal runs of non-whitespace,
    i.e. the non-empty chunks obtained by cutting at every whitespace character. -/
def pyWords (l : List Char) : List (List Char) :=
  (List.splitOnP pyIsSpace l).filter (· ≠ [])

/-! ## The filename classifier: parse_filestring (source lines 102-128) -/

/-- The literal html suffix searched by parse_filestring. -/
def htmlLit : List Char := ".html".data

/-- Match a literal alternative (A, F or K) at the head of the string. -/
def tryLit (lit l : List Char) : Option (List Char) :=
  if lit.isPrefixOf l then some lit else none

/-- Match a literal followed by the regex wildcard dot at the head of the
    string: the literal characters one by one, then any single character
    except a newline, so for example the HArt alternative also matches
    HArt-space and HArt-comma. -/
def tryWild : List Char → List Char → Option (List Char)
  | [], [] => none
  | [], c :: _ => if c = '\n' then none else some [c]
  | _ :: _, [] => none
  | a :: as, b :: bs => if a = b then (tryWild as bs).map (a :: ·) else none

/-- One attempt of the compiled alternation (A|F|K|HArt.|HTit.|HPt.|HDiv.|Hprec.|HCh.)
    at the head of the string.  Alternatives are tried in source order. -/
def altAt (l : List Char) : Option (List Char) :=
  (tryLit ['A'] l) <|> (tryLit ['F'] l) <|> (tryLit ['K'] l) <|>
  (tryWild ['H', 'A', 'r', 't'] l) <|> (tryWild ['H', 'T', 'i', 't'] l) <|>
  (tryWild ['H', 'P', 't'] l) <|> (tryWild ['H', 'D', 'i', 'v'] l) <|>
  (tryWild ['H', 'p', 'r', 'e', 'c'] l) <|> (tryWild ['H', 'C', 'h'] l)

/-- re.search of the alternation: the leftmost position where some alternative
    matches wins, and at that position the first listed alternative wins. -/
def regexSearch : List Char → Option (List Char)
  | [] => none
  | c :: t =>
    match altAt (c :: t) with
    | some m => some m
    | none => regexSearch t

/-- parse_filestring (source lines 102-128): the first nine characters, the
    marker found by searching s[9:], and the Python slice of s between the end
    of the marker (located with s.find(letters, 9)) and s.find of the html
    suffix searched from the start of the whole string. -/
def parseFsCore (s : List Char) : List Char × List Char × List Char :=
  let first9 := s.take 9
  let letters := (regexSearch (s.drop 9)).getD []
  let lettersPos : Int := if letters ≠ [] then pyFind s letters 9 else -1
  let remaining : List Char :=
    if lettersPos ≠ -1 then
      pySliceNeg s (lettersPos.toNat + letters.length) (pyFind s htmlLit 0)
    else []
  (first9, letters, remaining)

/-- String-level wrapper of parse_filestring. -/
def parse_filestring (s : String) : String × String × String :=
  let r := parseFsCore s.data
  (⟨r.1⟩, ⟨r.2.1⟩, ⟨r.2.2⟩)

/-- The nine marker literals of the claim, in the alternation's order. -/
def markerLits : List (List Char) :=
  [['A'], ['F'], ['K'], ['H', 'A', 'r', 't', '.'], ['H', 'T', 'i', 't', '.'],
   ['H', 'P', 't', '.'], ['H', 'D', 'i', 'v', '.'], ['H', 'p', 'r', 'e', 'c', '.'],
   ['H', 'C', 'h', '.']]

/-- The static marker-to-label mapping of build_ilcs_index (source lines 187-200). -/
def typeMapping : List (List Char × List Char) :=
  [("A".data, "Chapter (A)".data),
   ("F".data, "Act (F)".data),
   ("K".data, "Section (K)".data),
   ("HArt.".data, "Article (HArt)".data),
   ("HPt.".data, "Part (HPt)".data),
   ("HTit.".data, "Title (HTit)".data),
   ("HDiv.".data, "Division (HDiv)".data),
   ("HArt ".data, "Article (HArtDiv)".data),
   ("Hprec.".data, "Preceding Section (HprecSec)".data),
   ("HArt,".data, "Article (HArt)".data),
   ("HCh.".data, "Chapter (HCh)".data),
   ("HCh ".data, "Chapter (HChArt)".data)]

/-- The fillna default: label for markers absent from the mapping. -/
def unknownLabel : List Char := "Unknown".data

/-- Series.map over the static mapping followed by fillna, per filename. -/
def labelFor (t : List Char) : List Char :=
  (typeMapping.lookup t).getD unknownLabel

/-! ## The document model

An HTML node as BeautifulSoup presents it: a NavigableString (a raw text
fragment, an instance of str) or a Tag with a name, attributes and children.
A fetched page is modelled by its body element taken as the root: the source
reads soup.body for the flattened text and searches the whole soup for nodes,
and the pages at hand carry no text outside the body.  The body, being the
root here, has no siblings of its own. -/

inductive HNode : Type where
  | text : List Char → HNode
  | elem : List Char → List (List Char × List Char) → List HNode → HNode

def childrenOf : HNode → List HNode
  | .text _ => []
  | .elem _ _ cs => cs

/-- Tag.get(key): attribute lookup. -/
def attrOf (n : HNode) (key : List Char) : Option (List Char) :=
  match n with
  | .text _ => none
  | .elem _ attrs _ => attrs.lookup key

def tagOf : HNode → List Char
  | .text _ => []
  | .elem t _ _ => t

/-- isinstance(node, str): NavigableStrings are str instances, Tags are not. -/
def isTextNode : HNode → Bool
  | .text _ => true
  | .elem _ _ _ => false

def textValOf : HNode → List Char
  | .text s => s
  | .elem _ _ _ => []

mutual
/-- All text fragments below a node, in document order (the strings generator). -/
def textsOf : HNode → List (List Char)
  | .text s => [s]
  | .elem _ _ cs => textsOfList cs
def textsOfList : List HNode → List (List Char)
  | [] => []
  | n :: ns => textsOf n ++ textsOfList ns
end

/-- get_text with a newline separator and strip=True: the stripped non-empty
    text fragments joined by newlines (the stripped_strings generator). -/
def getTextNl (n : HNode) : List Char :=
  intercalateNl (((textsOf n).map pyStrip).filter (· ≠ []))

/-- get_text with no arguments, as used for anchor labels: the concatenation
    of the text fragments. -/
def getTextRaw (n : HNode) : List Char :=
  (textsOf n).flatten

mutual
/-- soup.find with tag/attribute conditions: the first element in document
    order satisfying the predicate. -/
def findTag (p : HNode → Bool) : HNode → Option HNode
  | .text _ => none
  | .elem t a cs =>
    if p (.elem t a cs) then some (.elem t a cs) else findTagList p cs
def findTagList (p : HNode → Bool) : List HNode → Option HNode
  | [] => none
  | n :: ns =>
    match findTag p n with
    | some r => some r
    | none => findTagList p ns
end

mutual
/-- find_all with a tag condition: every element below a node, document order. -/
def collectTags (p : HNode → Bool) : HNode → List HNode
  | .text _ => []
  | .elem t a cs =>
    (if p (.elem t a cs) then [HNode.elem t a cs] else []) ++ collectTagsList p cs
def collectTagsList (p : HNode → Bool) : List HNode → List HNode
  | [] => []
  | n :: ns => collectTags p n ++ collectTagsList p ns
end

mutual
/-- soup.find(string=regex): the first text fragment in document order whose
    content satisfies the predicate. -/
def findStr (p : List Char → Bool) : HNode → Option (List Char)
  | .text s => if p s then some s else none
  | .elem _ _ cs => findStrList p cs
def findStrList (p : List Char → Bool) : List HNode → Option (List Char)
  | [] => none
  | n :: ns =>
    match findStr p n with
    | some r => some r
    | none => findStrList p ns
end

mutual
/-- For the first text fragment in document order whose content satisfies the
    predicate, the previous_siblings of its parent element in backward order:
    exactly the nodes iterated at source lines 370-374.  parentPrev is the
    backward sibling list of the element whose children this node belongs to,
    and prev the backward list of the node's own previous siblings. -/
def findPPNode (p : List Char → Bool) (parentPrev prev : List HNode) :
    HNode → Option (List HNode)
  | .text s => if p s then some parentPrev else none
  | .elem _ _ cs => findPPList p prev [] cs
def findPPList (p : List Char → Bool) (parentPrev prev : List HNode) :
    List HNode → Option (List HNode)
  | [] => none
  | c :: rest =>
    match findPPNode p parentPrev prev c with
    | some r => some r
    | none => findPPList p parentPrev (c :: prev) rest
end

mutual
/-- The walk the claim describes, stated for comparison with findPPList: the
    previous siblings of the matched text node itself, in backward order.  The
    source instead walks the previous siblings of the node's parent. -/
def findNPSNode (p : List Char → Bool) (prev : List HNode) :
    HNode → Option (List HNode)
  | .text s => if p s then some prev else none
  | .elem _ _ cs => findNPSList p [] cs
def findNPSList (p : List Char → Bool) (prev : List HNode) :
    List HNode → Option (List HNode)
  | [] => none
  | c :: rest =>
    match findNPSNode p prev c with
    | some r => some r
    | none => findNPSList p (c :: prev) rest
end

/-- The backward accumulation of source lines 370-374: iterate the previous
    siblings closest-first, prepending each raw text fragment to the
    accumulated string, and stop at the first non-text sibling. -/
def gatherLeading : List HNode → List Char
  | .text s :: rest => gatherLeading rest ++ s
  | _ => []

/-! ## The statute-page extractor: parse_statute_page (source lines 295-382) -/

def secTag : List Char := "Sec.".data
def sourceTag : List Char := "(Source:".data
def amendMarker : List Char := "Text of Section after amendment".data

/-- Section-number extraction (lines 350-354): everything after the first dot,
    stripped; the whole line when it has no dot. -/
def secNumOf (line : List Char) : List Char :=
  match afterFirstChar '.' line with
  | some rest => pyStrip rest
  | none => line

/-- The per-line indentation re-lookup (lines 366-378): find the first text
    fragment containing the line, walk the previous siblings of its parent,
    turn non-breaking spaces into spaces, count the space characters and
    prefix that many spaces; the line itself when no fragment matches. -/
def indentLine (root : HNode) (line : List Char) : List Char :=
  match findPPList (fun s => occursTok s line) [] [] (childrenOf root) with
  | some ps => spacesN ((replaceNbsp (gatherLeading ps)).count ' ') ++ line
  | none => line

/-- The loop state of lines 339-341: the two flags and the fields they guard. -/
structure ScanSt where
  foundSection : Bool
  foundText : Bool
  sectionNumber : Option (List Char)
  source : Option (List Char)
  outLines : List (List Char)
deriving Repr, DecidableEq

def initScan : ScanSt :=
  { foundSection := false, foundText := false, sectionNumber := none,
    source := none, outLines := [] }

/-- The body of the line loop (lines 349-378) on a stripped non-empty line. -/
def scanCore (root : HNode) (st : ScanSt) (line : List Char) : ScanSt :=
  if secTag.isPrefixOf line && !st.foundSection then
    { st with
      sectionNumber := some (secNumOf line),
      foundSection := true, foundText := true }
  else if sourceTag.isPrefixOf line then
    { st with source := some line, foundText := false }
  else if st.foundText then
    { st with outLines := st.outLines ++ [indentLine root line] }
  else st

/-- One iteration of the line loop: strip the line, skip it when empty. -/
def scanLine (root : HNode) (st : ScanSt) (raw : List Char) : ScanSt :=
  let line := pyStrip raw
  if line = [] then st else scanCore root st line

def ilcsWord : List Char := "ILCS".data

/-- The regex word class, plus dash and dot, over the characters at hand. -/
def isWordDashDot (c : Char) : Bool :=
  c.isAlphanum || c = '_' || c = '-' || c = '.'

/-- One attempt of the citation pattern at line 325 (digits, whitespace, ILCS,
    whitespace, digits, slash, digits, then word/dash/dot characters) at the
    head of the string; every quantifier takes its maximal run. -/
def matchIlcsAt (l : List Char) : Option (List Char) :=
  let d1 := l.takeWhile Char.isDigit
  let r1 := l.dropWhile Char.isDigit
  if d1 = [] then none else
  let w1 := r1.takeWhile pyIsSpace
  let r2 := r1.dropWhile pyIsSpace
  if w1 = [] then none else
  if ilcsWord.isPrefixOf r2 then
    let r3 := r2.drop ilcsWord.length
    let w2 := r3.takeWhile pyIsSpace
    let r4 := r3.dropWhile pyIsSpace
    if w2 = [] then none else
    let d2 := r4.takeWhile Char.isDigit
    let r5 := r4.dropWhile Char.isDigit
    if d2 = [] then none else
    match r5 with
    | '/' :: r6 =>
      let d3 := r6.takeWhile Char.isDigit
      let r7 := r6.dropWhile Char.isDigit
      if d3 = [] then none
      else some (d1 ++ w1 ++ ilcsWord ++ w2 ++ d2 ++ '/' :: (d3 ++ r7.takeWhile isWordDashDot))
    | _ => none
  else none

/-- re.search of the citation pattern: the leftmost match.  The variant at
    line 323 only adds optional surrounding parentheses, so it matches a
    fragment exactly when this pattern matches it somewhere. -/
def ilcsSearch : List Char → Option (List Char)
  | [] => none
  | c :: t =>
    match matchIlcsAt (c :: t) with
    | some m => some m
    | none => ilcsSearch t

structure StatuteRec where
  ilcs_code : Option (List Char)
  section_number : Option (List Char)
  statute_text : List Char
  source : Option (List Char)
  amended_statute : Bool
deriving Repr, DecidableEq

/-- soup.body.get_text with newline separator and strip (line 330). -/
def allTextOf (root : HNode) : List Char :=
  getTextNl root

/-- Lines 332-335: the text after the first amendment marker when present. -/
def processedTextOf (root : HNode) : List Char :=
  if occursTok (allTextOf root) amendMarker then
    afterFirstTok amendMarker (allTextOf root)
  else allTextOf root

/-- The line loop of lines 343-378 run over the processed text. -/
def scanResultOf (root : HNode) : ScanSt :=
  (splitNl (processedTextOf root)).foldl (scanLine root) initScan

/-- parse_statute_page (lines 295-382) on a fetched document. -/
def parseStatuteDoc (root : HNode) : StatuteRec :=
  { ilcs_code := (findStr (fun s => (ilcsSearch s).isSome) root).bind ilcsSearch,
    section_number := (scanResultOf root).sectionNumber,
    statute_text := pyStrip (intercalateNl (scanResultOf root).outLines),
    source := (scanResultOf root).source,
    amended_statute := occursTok (allTextOf root) amendMarker }

/-- The pure selection underlying the line loop, for stating which stripped
    lines the state machine captures as body lines given the two flags. -/
def capLines : Bool → Bool → List (List Char) → List (List Char)
  | _, _, [] => []
  | fs, ft, raw :: rest =>
    let line := pyStrip raw
    if line = [] then capLines fs ft rest
    else if secTag.isPrefixOf line && !fs then capLines true true rest
    else if sourceTag.isPrefixOf line then capLines fs false rest
    else if ft then line :: capLines fs ft rest
    else capLines fs ft rest

/-- The indentation the claim prescribes for a line: the space count of the
    translated whitespace run gathered from the previous siblings of the
    matched text node itself; none when no fragment matches. -/
def claimIndentCount (root : HNode) (line : List Char) : Option Nat :=
  match findNPSList (fun s => occursTok s line) [] (childrenOf root) with
  | some ps => some ((replaceNbsp (gatherLeading ps)).count ' ')
  | none => none

/-- The flattened text preceding the first amendment marker, used to state
    which lines the claim says must not reach the output. -/
def preMarkerTextOf (root : HNode) : List Char :=
  match subFindAux amendMarker (allTextOf root) 0 with
  | some i => (allTextOf root).take i
  | none => []

/-! ## The act-page extractor: parse_act_page (source lines 206-255) -/

def titleLit : List Char := "Title:".data
def citeLit : List Char := "Cite:".data
def sourceLit : List Char := "Source:".data
def shortTitleLit : List Char := "Short title:".data

/-- The group of a lazy dot-star up to the first closing parenthesis, failing
    when a newline or the end of the string comes first (the dot does not
    match newlines and the pattern ends at the closing parenthesis). -/
def scanClose : List Char → Option (List Char)
  | [] => none
  | c :: r =>
    if c = ')' then some []
    else if c = '\n' then none
    else (scanClose r).map (c :: ·)

/-- re.search of the anchored pattern at line 230: an opening parenthesis at
    the very start, then a lazy group up to the first closing parenthesis. -/
def codeExtract : List Char → Option (List Char)
  | '(' :: rest => scanClose rest
  | _ => none

/-- After the closing parenthesis of the first group: greedy whitespace (which
    may cross newlines), then a second parenthesised group, lazily closed. -/
def titleTail (rest : List Char) : Option (List Char) :=
  match rest.dropWhile pyIsSpace with
  | '(' :: r2 => scanClose r2
  | _ => none

/-- The lazy first group with backtracking: try to close at each closing
    parenthesis and, when the rest of the pattern fails there, absorb the
    parenthesis into the group and continue; a newline fails the attempt. -/
def grp1Loop : List Char → Option (List Char)
  | [] => none
  | c :: r =>
    if c = ')' then
      match titleTail r with
      | some g2 => some g2
      | none => grp1Loop r
    else if c = '\n' then none
    else grp1Loop r

/-- re.search of the two-group pattern at line 234, returning group 2: the
    leftmost opening parenthesis from which the whole pattern matches wins. -/
def actTitleSearch : List Char → Option (List Char)
  | [] => none
  | c :: r =>
    if c = '(' then
      match grp1Loop r with
      | some g => some g
      | none => actTitleSearch r
    else actTitleSearch r

/-- title_description (lines 238-243): group 1 runs to the end of the text
    (DOTALL) after greedy whitespace, is cut before the first Cite: label,
    stripped, and its whitespace runs collapsed to single spaces. -/
def titleDescExtract (t : List Char) : Option (List Char) :=
  match subFindAux titleLit t 0 with
  | none => none
  | some i =>
    let g := (t.drop (i + titleLit.length)).dropWhile pyIsSpace
    let cut :=
      match subFindAux citeLit g 0 with
      | some j => g.take j
      | none => g
    some (List.intercalate [' '] (pyWords (pyStrip cut)))

/-- The common labelled-value pattern of lines 245-252: the label literal,
    greedy whitespace (which may cross newlines), then the rest of that line,
    stripped. -/
def labelLineExtract (lit t : List Char) : Option (List Char) :=
  match subFindAux lit t 0 with
  | none => none
  | some i =>
    some (pyStrip (((t.drop (i + lit.length)).dropWhile pyIsSpace).takeWhile (· ≠ '\n')))

def keyIlcsCode : List Char := "ilcs_code".data
def keyActTitle : List Char := "ilcs_act_title".data
def keyTitleDesc : List Char := "title_description".data
def keyCite : List Char := "cite".data
def keySource : List Char := "source".data
def keyShortTitle : List Char := "short_title".data

/-- soup.find of the justified div (line 225). -/
def findJustifyDiv (root : HNode) : Option HNode :=
  findTag (fun n => tagOf n = "div".data && attrOf n ("align".data) == some ("justify".data)) root

/-- parse_act_page (lines 206-255) on a fetched document: the data dict in
    assignment order; the dict stays empty when the justified div is absent,
    so the returned one-row frame then has no columns at all. -/
def parseActDoc (root : HNode) : List (List Char × Option (List Char)) :=
  match findJustifyDiv root with
  | none => []
  | some d =>
    let t := getTextNl d
    [(keyIlcsCode, codeExtract t),
     (keyActTitle, actTitleSearch t),
     (keyTitleDesc, titleDescExtract t),
     (keyCite, labelLineExtract citeLit t),
     (keySource, labelLineExtract sourceLit t),
     (keyShortTitle, labelLineExtract shortTitleLit t)]

/-! ## The listing scraper and crawler: _get_pages, build_ilcs_index -/

structure LinkEntry where
  label : List Char
  href : Option (List Char)
deriving Repr, DecidableEq

/-- The two exceptions the crawl can hit in the embedded fragment. -/
inductive PyErr : Type where
  | attributeError
  | keyError
deriving Repr, DecidableEq

def parentDirLabel : List Char := "[To Parent Directory]".data
def aReadMeLabel : List Char := "aReadMe".data

/-- Anchor extraction of _get_pages (lines 84-95): the anchors below the first
    pre block, as label/href pairs, minus the parent-directory sentinel. -/
def rawLinksOf (root : HNode) : List LinkEntry :=
  match findTag (fun n => tagOf n = "pre".data) root with
  | none => []
  | some preTag =>
    ((collectTagsList (fun n => tagOf n = "a".data) (childrenOf preTag)).map
      (fun a => ({ label := getTextRaw a, href := attrOf a ("href".data) } : LinkEntry))).filter
      (fun e => e.label ≠ parentDirLabel)

/-- The frame step of _get_pages (lines 97-100): json_normalize of an empty
    record list yields a frame with no label column, so the aReadMe filter
    raises a KeyError; otherwise the filter drops the aReadMe rows. -/
def framePages (links : List LinkEntry) : Except PyErr (List LinkEntry) :=
  if links = [] then .error .keyError
  else .ok (links.filter (fun e => e.label ≠ aReadMeLabel))

/-- _get_pages (lines 71-100) applied to the response of the fetch layer:
    reading response.text off the None sentinel raises an AttributeError. -/
def getPages (resp : Option HNode) : Except PyErr (List LinkEntry) :=
  match resp with
  | none => .error .attributeError
  | some root => framePages (rawLinksOf root)

/-- The fetch layer as build_ilcs_index sees it: _request_util returns a
    document or the None sentinel.  Requests are keyed by the url path handed
    to _get_pages, which is an anchor's href (possibly absent) or the root. -/
def Fetch : Type :=
  Option (List Char) → Option HNode

structure RawRow where
  chapter_name : List Char
  chapter_url : Option (List Char)
  act_name : List Char
  act_url : Option (List Char)
  section_file : List Char
  section_url : Option (List Char)
deriving Repr, DecidableEq

structure IndexRow where
  chapter_name : List Char
  chapter_url : Option (List Char)
  act_name : List Char
  act_url : Option (List Char)
  section_file : List Char
  section_url : Option (List Char)
  ilcs_index_number : List Char
  ilcs_index_type : List Char
  ilcs_index_ext : List Char
  ilcs_index_type_label : List Char
deriving Repr, DecidableEq

/-- The label lookup of .loc at lines 155-157 and 162-164: the label of the
    first entry carrying the given href. -/
def nameFor (entries : List LinkEntry) (h : Option (List Char)) : List Char :=
  match entries.find? (fun e => e.href == h) with
  | some e => e.label
  | none => []

/-- Lines 166-177: each surviving section entry becomes one row annotated with
    its ancestor chapter and act. -/
def crawlSections (chName : List Char) (chUrl : Option (List Char))
    (actName : List Char) (actUrl : Option (List Char))
    (secs : List LinkEntry) : List RawRow :=
  secs.map (fun s =>
    { chapter_name := chName, chapter_url := chUrl, act_name := actName,
      act_url := actUrl, section_file := s.label, section_url := s.href })

/-- The inner loop over acts (lines 161-182). -/
def crawlActs (site : Fetch) (chName : List Char) (chUrl : Option (List Char))
    (actsAll : List LinkEntry) : List LinkEntry → Except PyErr (List RawRow)
  | [] => .ok []
  | a :: rest => do
    let secs ← getPages (site a.href)
    let more ← crawlActs site chName chUrl actsAll rest
    .ok (crawlSections chName chUrl (nameFor actsAll a.href) a.href secs ++ more)

/-- The outer loop over chapters (lines 154-182). -/
def crawlChapters (site : Fetch) (chsAll : List LinkEntry) :
    List LinkEntry → Except PyErr (List RawRow)
  | [] => .ok []
  | ch :: rest => do
    let acts ← getPages (site ch.href)
    let here ← crawlActs site (nameFor chsAll ch.href) ch.href acts acts
    let more ← crawlChapters site chsAll rest
    .ok (here ++ more)

/-- The classification stage (lines 184-202) applied to one crawled row. -/
def classifyRow (r : RawRow) : IndexRow :=
  let p := parseFsCore r.section_file
  { chapter_name := r.chapter_name, chapter_url := r.chapter_url,
    act_name := r.act_name, act_url := r.act_url,
    section_file := r.section_file, section_url := r.section_url,
    ilcs_index_number := p.1, ilcs_index_type := p.2.1, ilcs_index_ext := p.2.2,
    ilcs_index_type_label := labelFor p.2.1 }

/-- build_ilcs_index (lines 130-204) over a fetch layer: the chapter listing
    is fetched, the two inner loops crawl acts and sections, and the
    classification stage is applied to every collected row; an exception at
    any level propagates (nothing catches it in the source). -/
def build_ilcs_index (site : Fetch) (rootPath : List Char) :
    Except PyErr (List IndexRow) :=
  match getPages (site (some rootPath)) with
  | .error e => .error e
  | .ok chapters =>
    match crawlChapters site chapters chapters with
    | .error e => .error e
    | .ok rows => .ok (rows.map classifyRow)

/-! ## Concrete inputs used by the theorems -/

/-- A filename that meets every condition the round-trip claim states, yet on
    which the residual is cut short: the html characters of the residual sit
    right after the dot ending the marker, so s.find of the html suffix lands
    before the residual begins. -/
def c1In : String := "012345678HArt.html5.html"

def c6In : String := "012345678K50010"

def c7InA : String := "012345678HArt 5.html"

def c7InB : String := "012345678HCh 7.html"

def c7InC : String := "012345678HArt,9.html"

/-- Two non-breaking spaces, as a formatting text fragment. -/
def nbsp2 : List Char := ['\u00A0', '\u00A0']

def secLineT : List Char := "Sec. 1. T.".data

/-- A statute body whose line foo sits in a text node directly preceded, within
    the same parent, by a fragment of two non-breaking spaces, while that
    parent element has no preceding text siblings of its own. -/
def c2doc : HNode :=
  .elem "body".data []
    [.elem "p".data [] [.text secLineT],
     .elem "p".data [] [.text "bar".data],
     .elem "div".data [] [.text nbsp2, .text "foo".data]]

/-- A statute body whose line beta is wrapped in a span, the span preceded by a
    two-non-breaking-space fragment: the shape the source's walk reads. -/
def w2doc : HNode :=
  .elem "body".data []
    [.elem "p".data [] [.text secLineT],
     .elem "p".data [] [.text "alpha".data],
     .elem "p".data [] [.text nbsp2, .elem "span".data [] [.text "beta".data]]]

/-- An amended statute whose post-amendment line foo also occurs before the
    marker; the pre-marker occurrence has no leading whitespace fragment, the
    post-marker one has two non-breaking spaces before its span. -/
def c3doc : HNode :=
  .elem "body".data []
    [.elem "p".data [] [.elem "span".data [] [.text "foo".data]],
     .text amendMarker,
     .elem "p".data [] [.text secLineT],
     .elem "p".data [] [.text "bar".data],
     .elem "p".data [] [.text nbsp2, .elem "span".data [] [.text "foo".data]]]

def srcLineA : List Char := "(Source: A.)".data

def srcLineB : List Char := "(Source: B.)".data

/-- A statute body carrying a second Source line after the first one. -/
def c4doc : HNode :=
  .elem "body".data []
    [.elem "p".data [] [.text "Sec. 1. Short title.".data],
     .elem "p".data [] [.text "Hello.".data],
     .elem "p".data [] [.text srcLineA],
     .elem "p".data [] [.text srcLineB]]

/-- A well-formed statute body: junk before the section line, one body line,
    one Source line, nothing after. -/
def c4wdoc : HNode :=
  .elem "body".data []
    [.elem "p".data [] [.text "junk".data],
     .elem "p".data [] [.text "Sec. 1. Short title.".data],
     .elem "p".data [] [.text "Hello.".data],
     .elem "p".data [] [.text "(Source: P.A. 90-655.)".data]]

/-- An act page with no justified div. -/
def actNoDivDoc : HNode :=
  .elem "body".data [] [.elem "p".data [] [.text "x".data]]

/-- A justified div whose text carries two leading parenthesised groups and a
    Cite line, but no Title, Source or Short title labels. -/
def actWitDiv : HNode :=
  .elem "div".data [("align".data, "justify".data)]
    [.text "(35 ILCS 200/) (from Ch. 120)".data, .text "Cite: here".data]

/-- An act page holding that div. -/
def actWitDoc : HNode :=
  .elem "body".data [] [actWitDiv]

/-- An anchor entry of a directory listing. -/
def anchorNode (href lab : String) : HNode :=
  .elem "a".data [("href".data, href.data)] [.text lab.data]

/-- A directory-listing page: one pre block holding the anchors. -/
def listingDoc (ls : List HNode) : HNode :=
  .elem "body".data [] [.elem "pre".data [] ls]

/-- A fetch layer given by a finite table; absent keys are the None sentinel
    of _request_util (exhausted retries on a transient failure). -/
def mkSite (pairs : List (Option (List Char) × HNode)) : Fetch :=
  fun k => pairs.lookup k

def rootPathLit : List Char := "/ftp/ILCS/".data

/-- A site whose act listing serves the two filenames carrying wildcard-matched
    markers. -/
def c7site : Fetch :=
  mkSite
    [(some rootPathLit, listingDoc [anchorNode "ch1" "Chapter 1"]),
     (some "ch1".data, listingDoc [anchorNode "act1" "Act 1"]),
     (some "act1".data, listingDoc [anchorNode "s1" c7InA, anchorNode "s2" c7InB])]

/-- A site where the first chapter's listing fetch fails transiently (the
    sentinel), while a sibling chapter would succeed. -/
def c8site : Fetch :=
  mkSite
    [(some rootPathLit, listingDoc [anchorNode "ch1" "Chapter 1", anchorNode "ch2" "Chapter 2"]),
     (some "ch2".data, listingDoc [anchorNode "act2" "Act 2"]),
     (some "act2".data, listingDoc [anchorNode "s9" "005000050K50010.html"])]

/-- A listing whose only anchor is the parent-directory sentinel: after the
    exclusion no entry survives. -/
def c10doc : HNode :=
  listingDoc [anchorNode "up" "[To Parent Directory]"]

/-- A site whose single chapter serves the empty listing above. -/
def c10site : Fetch :=
  mkSite
    [(some rootPathLit, listingDoc [anchorNode "ch1" "Chapter 1"]),
     (some "ch1".data, c10doc)]

/-- A site whose single section filename is shorter than nine characters and
    carries no marker. -/
def c5site : Fetch :=
  mkSite
    [(some rootPathLit, listingDoc [anchorNode "ch1" "Chapter 1"]),
     (some "ch1".data, listingDoc [anchorNode "act1" "Act 1"]),
     (some "act1".data, listingDoc [anchorNode "s1" "ab.html"])]

/-- The single index row the c5site crawl produces. -/
def c5row : IndexRow :=
  { chapter_name := "Chapter 1".data, chapter_url := some ("ch1".data),
    act_name := "Act 1".data, act_url := some ("act1".data),
    section_file := "ab.html".data, section_url := some ("s1".data),
    ilcs_index_number := "ab.html".data, ilcs_index_type := [],
    ilcs_index_ext := [], ilcs_index_type_label := unknownLabel }

/-- The stripped non-empty lines the statute line loop iterates over: the
    processed text split at newlines, each line stripped, empties dropped. -/
def strippedLinesOf (root : HNode) : List (List Char) :=
  ((splitNl (processedTextOf root)).map pyStrip).filter (· ≠ [])

/-- The contiguous run of raw text fragments at the head of a backward sibling
    list, concatenated back in document order: what the gathering loop of
    lines 370-374 produces, stated structurally. -/
def leadTextRun (ps : List HNode) : List Char :=
  (((ps.takeWhile isTextNode).map textValOf).reverse).flatten

/-! # Theorems

First a stock of lemmas about the string primitives, then one theorem (with
counterexample and witness where due) per property of the specification. -/

theorem length_dropWhile_le (p : Char → Bool) (l : List Char) :
    (l.dropWhile p).length ≤ l.length := by
  induction l with
  | nil => simp [List.dropWhile]
  | cons c t ih =>
    by_cases h : p c
    · rw [List.dropWhile_cons, if_pos h]
      exact Nat.le_succ_of_le ih
    · rw [List.dropWhile_cons, if_neg h]

theorem dropWhile_idem (p : Char → Bool) (l : List Char) :
    (l.dropWhile p).dropWhile p = l.dropWhile p := by
  induction l with
  | nil => simp [List.dropWhile]
  | cons c t ih =>
    by_cases h : p c
    · rw [List.dropWhile_cons, if_pos h, ih]
    · rw [List.dropWhile_cons, if_neg h, List.dropWhile_cons, if_neg h]

theorem dropWhile_eq_self_of_prefix {p : Char → Bool} {x y : List Char}
    (hx : x.dropWhile p = x) (hy : y <+: x) : y.dropWhile p = y := by
  cases y with
  | nil => simp [List.dropWhile]
  | cons c t =>
    obtain ⟨r, hr⟩ := hy
    by_cases h : p c
    · exfalso
      rw [← hr, List.cons_append, List.dropWhile_cons, if_pos h] at hx
      have hlen := length_dropWhile_le p (t ++ r)
      rw [hx] at hlen
      simp at hlen
    · rw [List.dropWhile_cons, if_neg h]

theorem pyStrip_idem (l : List Char) : pyStrip (pyStrip l) = pyStrip l := by
  have hfrontx : (l.dropWhile pyIsSpace).dropWhile pyIsSpace = l.dropWhile pyIsSpace :=
    dropWhile_idem _ _
  have hfront : (pyStrip l).dropWhile pyIsSpace = pyStrip l := by
    refine dropWhile_eq_self_of_prefix hfrontx ?_
    unfold pyStrip
    rw [← List.reverse_suffix, List.reverse_reverse]
    exact List.dropWhile_suffix _
  have hback : (pyStrip l).reverse.dropWhile pyIsSpace = (pyStrip l).reverse := by
    unfold pyStrip
    rw [List.reverse_reverse]
    exact dropWhile_idem _ _
  show ((((pyStrip l).dropWhile pyIsSpace).reverse).dropWhile pyIsSpace).reverse = pyStrip l
  rw [hfront, hback, List.reverse_reverse]

theorem mem_dropWhile_of_not {p : Char → Bool} {c : Char} {l : List Char}
    (hc : c ∈ l) (hp : p c = false) : c ∈ l.dropWhile p := by
  induction l with
  | nil => cases hc
  | cons d t ih =>
    by_cases hd : p d
    · rw [List.dropWhile_cons, if_pos hd]
      rcases List.mem_cons.mp hc with rfl | hct
      · rw [hd] at hp; cases hp
      · exact ih hct
    · rw [List.dropWhile_cons, if_neg hd]
      exact hc

theorem mem_pyStrip {c : Char} {l : List Char} (hc : c ∈ l)
    (hp : pyIsSpace c = false) : c ∈ pyStrip l := by
  unfold pyStrip
  rw [List.mem_reverse]
  refine mem_dropWhile_of_not ?_ hp
  rw [List.mem_reverse]
  exact mem_dropWhile_of_not hc hp

theorem pyStrip_ne_nil {c : Char} {l : List Char} (hc : c ∈ l)
    (hp : pyIsSpace c = false) : pyStrip l ≠ [] :=
  List.ne_nil_of_mem (mem_pyStrip hc hp)

theorem exists_nonspace_of_pyStrip_self {b : List Char} (hb : pyStrip b = b)
    (hne : b ≠ []) : ∃ c ∈ b, pyIsSpace c = false := by
  by_contra hall
  push_neg at hall
  have hsp : ∀ c ∈ b, pyIsSpace c = true := by
    intro c hc
    have := hall c hc
    revert this
    cases pyIsSpace c <;> simp
  have : b.dropWhile pyIsSpace = [] := List.dropWhile_eq_nil_iff.mpr hsp
  rw [← hb] at hne
  unfold pyStrip at hne
  rw [this] at hne
  simp at hne

theorem subFindAux_prefix {sub l : List Char} (h : sub.isPrefixOf l = true)
    (i : Nat) : subFindAux sub l i = some i := by
  cases l with
  | nil => simp [subFindAux, h]
  | cons c t => simp [subFindAux, h]

theorem subFindAux_isSome {sub l : List Char} (k : Nat)
    (h : sub.isPrefixOf (l.drop k) = true) :
    ∀ i, (subFindAux sub l i).isSome = true := by
  induction l generalizing k with
  | nil =>
    intro i
    rw [List.drop_nil] at h
    simp [subFindAux, h]
  | cons c t ih =>
    intro i
    by_cases hp : sub.isPrefixOf (c :: t) = true
    · simp [subFindAux, hp]
    · cases k with
      | zero =>
        rw [List.drop_zero] at h
        exact absurd h hp
      | succ k2 =>
        rw [List.drop_succ_cons] at h
        rw [subFindAux, if_neg (by simp [hp])]
        exact ih k2 h (i + 1)

theorem subFindAux_eq_none_of_occurs_false {sub l : List Char}
    (h : occursTok l sub = false) : subFindAux sub l 0 = none := by
  unfold occursTok at h
  cases hc : subFindAux sub l 0 with
  | none => rfl
  | some j => rw [hc] at h; simp at h

theorem isPrefixOf_append_self (l t : List Char) : l.isPrefixOf (l ++ t) = true := by
  rw [List.isPrefixOf_iff_prefix]
  exact List.prefix_append l t

theorem pyFind_eq_of_subFind {s sub : List Char} {start j : Nat}
    (h : subFindAux sub (s.drop start) start = some j) :
    pyFind s sub start = (j : Int) := by
  unfold pyFind
  rw [h]

theorem pyFind_eq_neg_of_subFind {s sub : List Char} {start : Nat}
    (h : subFindAux sub (s.drop start) start = none) :
    pyFind s sub start = -1 := by
  unfold pyFind
  rw [h]

theorem tryLit_eq_some {lit l m : List Char} (h : tryLit lit l = some m) :
    m = lit ∧ lit.isPrefixOf l = true := by
  unfold tryLit at h
  by_cases hp : lit.isPrefixOf l = true
  · rw [if_pos hp] at h
    exact ⟨(Option.some_inj.mp h).symm, hp⟩
  · rw [if_neg hp] at h
    cases h

theorem tryWild_eq_some {lit l m : List Char} (h : tryWild lit l = some m) :
    m.isPrefixOf l = true ∧ m ≠ [] := by
  induction lit generalizing l m with
  | nil =>
    cases l with
    | nil => simp [tryWild] at h
    | cons c r =>
      by_cases hc : c = '\n'
      · simp [tryWild, hc] at h
      · simp [tryWild, hc] at h
        rw [← h]
        exact ⟨by simp [List.isPrefixOf], by simp⟩
  | cons a as ih =>
    cases l with
    | nil => simp [tryWild] at h
    | cons b bs =>
      by_cases hab : a = b
      · rw [tryWild, if_pos hab] at h
        obtain ⟨w, hw, hm⟩ := Option.map_eq_some'.mp h
        obtain ⟨hpre, hne⟩ := ih hw
        subst hm
        subst hab
        refine ⟨?_, by simp⟩
        simp [List.isPrefixOf, hpre]
      · rw [tryWild, if_neg hab] at h
        cases h

theorem orElse_eq_some_cases {α : Type} {a b : Option α} {m : α}
    (h : (a <|> b) = some m) : a = some m ∨ b = some m := by
  cases a with
  | none => right; simpa using h
  | some x => left; simpa using h

theorem altAt_eq_some {l m : List Char} (h : altAt l = some m) :
    m.isPrefixOf l = true ∧ m ≠ [] := by
  unfold altAt at h
  rcases orElse_eq_some_cases h with h | h
  · obtain ⟨rfl, hp⟩ := tryLit_eq_some h
    exact ⟨hp, by simp⟩
  rcases orElse_eq_some_cases h with h | h
  · obtain ⟨rfl, hp⟩ := tryLit_eq_some h
    exact ⟨hp, by simp⟩
  rcases orElse_eq_some_cases h with h | h
  · obtain ⟨rfl, hp⟩ := tryLit_eq_some h
    exact ⟨hp, by simp⟩
  rcases orElse_eq_some_cases h with h | h
  · exact tryWild_eq_some h
  rcases orElse_eq_some_cases h with h | h
  · exact tryWild_eq_some h
  rcases orElse_eq_some_cases h with h | h
  · exact tryWild_eq_some h
  rcases orElse_eq_some_cases h with h | h
  · exact tryWild_eq_some h
  rcases orElse_eq_some_cases h with h | h
  · exact tryWild_eq_some h
  · exact tryWild_eq_some h

theorem regexSearch_eq_some {l m : List Char} (h : regexSearch l = some m) :
    (∃ k, m.isPrefixOf (l.drop k) = true) ∧ m ≠ [] := by
  induction l with
  | nil => cases h
  | cons c t ih =>
    rw [regexSearch] at h
    cases haa : altAt (c :: t) with
    | some m2 =>
      rw [haa] at h
      have hm : m2 = m := Option.some_inj.mp h
      rw [hm] at haa
      obtain ⟨hp, hne⟩ := altAt_eq_some haa
      exact ⟨⟨0, by rw [List.drop_zero]; exact hp⟩, hne⟩
    | none =>
      rw [haa] at h
      obtain ⟨⟨k, hk⟩, hne⟩ := ih h
      exact ⟨⟨k + 1, by rw [List.drop_succ_cons]; exact hk⟩, hne⟩

theorem regexSearch_cons_some {c : Char} {t m : List Char}
    (h : altAt (c :: t) = some m) : regexSearch (c :: t) = some m := by
  rw [regexSearch, h]

theorem regexSearch_marker {m : List Char} (hm : m ∈ markerLits) (rest : List Char) :
    regexSearch (m ++ rest) = some m := by
  simp only [markerLits, List.mem_cons, List.not_mem_nil, or_false] at hm
  rcases hm with rfl | rfl | rfl | rfl | rfl | rfl | rfl | rfl | rfl
  · exact regexSearch_cons_some
      (by show altAt ('A' :: rest) = _
          simp [altAt, tryLit, List.isPrefixOf])
  · exact regexSearch_cons_some
      (by show altAt ('F' :: rest) = _
          simp [altAt, tryLit, List.isPrefixOf])
  · exact regexSearch_cons_some
      (by show altAt ('K' :: rest) = _
          simp [altAt, tryLit, List.isPrefixOf])
  · exact regexSearch_cons_some
      (by show altAt ('H' :: 'A' :: 'r' :: 't' :: '.' :: rest) = _
          simp [altAt, tryLit, tryWild, List.isPrefixOf])
  · exact regexSearch_cons_some
      (by show altAt ('H' :: 'T' :: 'i' :: 't' :: '.' :: rest) = _
          simp [altAt, tryLit, tryWild, List.isPrefixOf])
  · exact regexSearch_cons_some
      (by show altAt ('H' :: 'P' :: 't' :: '.' :: rest) = _
          simp [altAt, tryLit, tryWild, List.isPrefixOf])
  · exact regexSearch_cons_some
      (by show altAt ('H' :: 'D' :: 'i' :: 'v' :: '.' :: rest) = _
          simp [altAt, tryLit, tryWild, List.isPrefixOf])
  · exact regexSearch_cons_some
      (by show altAt ('H' :: 'p' :: 'r' :: 'e' :: 'c' :: '.' :: rest) = _
          simp [altAt, tryLit, tryWild, List.isPrefixOf])
  · exact regexSearch_cons_some
      (by show altAt ('H' :: 'C' :: 'h' :: '.' :: rest) = _
          simp [altAt, tryLit, tryWild, List.isPrefixOf])

/-- C1, corrected claim.  The original claim omits one condition: the closing
    html suffix must also be the first occurrence of the html literal in the
    whole filename.  Without it, an html occurrence built from the code, or
    from a dot-ending marker followed by a residual starting with the letters
    html, truncates the returned residual (see the counterexample).  Under
    that extra condition, for every filename code ++ marker ++ residual ++
    html-suffix with a nine-character code, a marker from the alternation
    first occurring at offset nine and a residual free of marker literals and
    of the html literal, parse_filestring returns exactly the code, the
    marker, and the residual. -/
theorem c1_amended (code m residual : List Char)
    (hcode : code.length = 9)
    (hm : m ∈ markerLits)
    (hres1 : ∀ t ∈ markerLits, occursTok residual t = false)
    (hres2 : occursTok residual htmlLit = false)
    (hfirst : subFindAux htmlLit (code ++ (m ++ (residual ++ htmlLit))) 0 =
      some (9 + (m.length + residual.length))) :
    parseFsCore (code ++ (m ++ (residual ++ htmlLit))) = (code, m, residual) := by
  have hdrop : (code ++ (m ++ (residual ++ htmlLit))).drop 9 = m ++ (residual ++ htmlLit) := by
    rw [← hcode, List.drop_left]
  have htake : (code ++ (m ++ (residual ++ htmlLit))).take 9 = code := by
    rw [← hcode, List.take_left]
  have hsearch : regexSearch ((code ++ (m ++ (residual ++ htmlLit))).drop 9) = some m := by
    rw [hdrop]; exact regexSearch_marker hm _
  have hmne : m ≠ [] := by
    have hall : ∀ x ∈ markerLits, x ≠ ([] : List Char) := by decide
    exact hall m hm
  have hfind9 : pyFind (code ++ (m ++ (residual ++ htmlLit))) m 9 = (9 : Int) := by
    refine pyFind_eq_of_subFind ?_
    rw [hdrop]
    exact subFindAux_prefix (isPrefixOf_append_self m _) 9
  have hfindHtml : pyFind (code ++ (m ++ (residual ++ htmlLit))) htmlLit 0 =
      ((9 + (m.length + residual.length) : Nat) : Int) := by
    refine pyFind_eq_of_subFind ?_
    rw [List.drop_zero]
    exact hfirst
  have hassoc : code ++ (m ++ (residual ++ htmlLit)) = (code ++ m ++ residual) ++ htmlLit := by
    simp [List.append_assoc]
  have hlen3 : (code ++ m ++ residual).length = 9 + (m.length + residual.length) := by
    simp [List.length_append, hcode]
  have hslice : pySliceNeg (code ++ (m ++ (residual ++ htmlLit))) (9 + m.length)
      ((9 + (m.length + residual.length) : Nat) : Int) = residual := by
    simp only [pySliceNeg]
    rw [if_neg (by omega), Int.toNat_natCast]
    have hmin : min (9 + (m.length + residual.length))
        (code ++ (m ++ (residual ++ htmlLit))).length = 9 + (m.length + residual.length) := by
      simp [List.length_append, hcode]
    rw [hmin, hassoc, ← hlen3, List.take_left]
    have hlen2 : (code ++ m).length = 9 + m.length := by
      simp [List.length_append, hcode]
    rw [← hlen2, List.drop_left]
  simp only [parseFsCore]
  rw [hsearch]
  simp only [Option.getD_some]
  rw [if_pos hmne, hfind9, if_pos (by decide : (9 : Int) ≠ -1)]
  rw [show ((9 : Int).toNat) = 9 from rfl, hfindHtml, hslice, htake]

/-- C1 counterexample: this filename is a nine-character code, the marker
    HArt-dot first occurring at offset nine, then the residual html5 (which
    contains no marker literal and no dot-html substring), then the html
    suffix — every condition of the claim.  Yet parse_filestring returns an
    empty residual, not html5: s.find of the html literal hits the occurrence
    formed by the marker's dot followed by the residual's letters. -/
theorem c1_counterexample :
    c1In.data = "012345678".data ++ ("HArt.".data ++ ("html5".data ++ htmlLit)) ∧
    ("012345678".data : List Char).length = 9 ∧
    "HArt.".data ∈ markerLits ∧
    (∀ t ∈ markerLits, occursTok ("html5".data) t = false) ∧
    occursTok ("html5".data) htmlLit = false ∧
    parse_filestring c1In ≠ ("012345678", "HArt.", "html5") := by
  refine ⟨by decide, by decide, by decide, by decide, by decide, by decide⟩

/-- C1 witness: the amended theorem applied to the specification's own
    example, code 005000050, marker K, residual 50010. -/
theorem c1_amended_witness :
    parseFsCore ("005000050".data ++ ("K".data ++ ("50010".data ++ htmlLit))) =
      ("005000050".data, "K".data, "50010".data) :=
  c1_amended ("005000050".data) ("K".data) ("50010".data)
    (by decide) (by decide) (by decide) (by decide) (by decide)

/-- C6, corrected claim.  When a marker is found but the filename has no
    html suffix, s.find returns -1 and the Python slice s[start:-1] runs up to
    the last character exclusive: the residual is everything between the end
    of the marker and the final character, not the empty string. -/
theorem c6_amended (s m : List Char)
    (hsearch : regexSearch (s.drop 9) = some m)
    (hnohtml : occursTok s htmlLit = false) :
    (parseFsCore s).2.2 =
      (s.take (s.length - 1)).drop ((pyFind s m 9).toNat + m.length) := by
  obtain ⟨⟨k, hk⟩, hmne⟩ := regexSearch_eq_some hsearch
  have hsome : (subFindAux m (s.drop 9) 9).isSome = true :=
    subFindAux_isSome k hk 9
  obtain ⟨j, hj⟩ := Option.isSome_iff_exists.mp hsome
  have hfind : pyFind s m 9 = (j : Int) := pyFind_eq_of_subFind hj
  have hhtml : pyFind s htmlLit 0 = -1 := by
    refine pyFind_eq_neg_of_subFind ?_
    rw [List.drop_zero]
    exact subFindAux_eq_none_of_occurs_false hnohtml
  simp only [parseFsCore]
  rw [hsearch]
  simp only [Option.getD_some]
  rw [if_pos hmne, hfind, if_pos (by omega : ((j : Nat) : Int) ≠ -1), hhtml]
  simp only [pySliceNeg]
  rw [if_pos (by omega : (-1 : Int) < 0)]
  rw [show (-(-1 : Int)).toNat = 1 from rfl]

/-- C6 counterexample: a marker is found and no html suffix occurs, yet the
    residual comes back as the non-empty string 5001 (the characters between
    the marker and the final character), not the empty string. -/
theorem c6_counterexample :
    regexSearch (c6In.data.drop 9) = some ("K".data) ∧
    occursTok c6In.data htmlLit = false ∧
    parse_filestring c6In = ("012345678", "K", "5001") ∧
    (parse_filestring c6In).2.2 ≠ "" := by
  refine ⟨by decide, by decide, by decide, by decide⟩

/-- C6 witness: the amended theorem applied to the counterexample input. -/
theorem c6_amended_witness :
    regexSearch (c6In.data.drop 9) = some ("K".data) ∧
    occursTok c6In.data htmlLit = false ∧
    (parseFsCore c6In.data).2.2 =
      (c6In.data.take (c6In.data.length - 1)).drop
        ((pyFind c6In.data ("K".data) 9).toNat + ("K".data).length) :=
  ⟨by decide, by decide, c6_amended c6In.data ("K".data) (by decide) (by decide)⟩

/-- C7 counterexample: the dot in the H alternatives is a regex wildcard, so
    the marker-search step does return HArt-space, HCh-space and HArt-comma,
    and the mapping rows keyed by the first two yield the labels the claim
    says can never appear. -/
theorem c7_counterexample :
    parse_filestring c7InA = ("012345678", "HArt ", "5") ∧
    parse_filestring c7InB = ("012345678", "HCh ", "7") ∧
    parse_filestring c7InC = ("012345678", "HArt,", "9") ∧
    labelFor ("HArt ".data) = "Article (HArtDiv)".data ∧
    labelFor ("HCh ".data) = "Chapter (HChArt)".data := by
  refine ⟨by decide, by decide, by decide, by decide, by decide⟩

/-- C7, corrected claim: the three mapping entries are reachable, because the
    dot in each H alternative matches any character except a newline.  A crawl
    over a site serving such filenames produces index rows labelled
    Article (HArtDiv) and Chapter (HChArt). -/
theorem c7_amended :
    ∃ r1 r2, build_ilcs_index c7site rootPathLit = Except.ok [r1, r2] ∧
      r1.ilcs_index_type = "HArt ".data ∧
      r1.ilcs_index_type_label = "Article (HArtDiv)".data ∧
      r2.ilcs_index_type = "HCh ".data ∧
      r2.ilcs_index_type_label = "Chapter (HChArt)".data := by
  refine ⟨_, _, rfl, rfl, rfl, rfl, rfl⟩

/-- C5, confirmed: every row an ok run of build_ilcs_index returns has its
    index number equal to the first nine characters of its section file (the
    whole string when shorter), and the Unknown label whenever its raw marker
    is not a key of the static mapping. -/
theorem c5_invariant (site : Fetch) (rootPath : List Char) (rows : List IndexRow)
    (h : build_ilcs_index site rootPath = Except.ok rows) :
    ∀ r ∈ rows, r.ilcs_index_number = r.section_file.take 9 ∧
      ((typeMapping.lookup r.ilcs_index_type).isNone = true →
        r.ilcs_index_type_label = unknownLabel) := by
  intro r hr
  have hrows : ∃ raw : List RawRow, rows = raw.map classifyRow := by
    unfold build_ilcs_index at h
    split at h
    · cases h
    · split at h
      · cases h
      · exact ⟨_, (Except.ok.inj h).symm⟩
  obtain ⟨raw, rfl⟩ := hrows
  obtain ⟨r0, _, rfl⟩ := List.mem_map.mp hr
  constructor
  · rfl
  · intro hnone
    simp only [classifyRow] at hnone
    show (typeMapping.lookup (parseFsCore r0.section_file).2.1).getD unknownLabel = unknownLabel
    rw [Option.isNone_iff_eq_none.mp hnone]
    rfl

/-- C5 witness: the invariant applied to the run over the one-section site
    whose filename is shorter than nine characters and has no marker. -/
theorem c5_invariant_witness :
    build_ilcs_index c5site rootPathLit = Except.ok [c5row] ∧
    c5row.ilcs_index_number = c5row.section_file.take 9 ∧
    ((typeMapping.lookup c5row.ilcs_index_type).isNone = true →
      c5row.ilcs_index_type_label = unknownLabel) :=
  ⟨rfl,
   (c5_invariant c5site rootPathLit [c5row] rfl c5row (by simp)).1,
   (c5_invariant c5site rootPathLit [c5row] rfl c5row (by simp)).2⟩

/-- C8, evaluation of the code at the failing input: the fetch of the first
    chapter's listing returns the None sentinel, and build_ilcs_index, far
    from treating the subtree as empty and continuing with the sibling
    chapter, aborts with the AttributeError raised inside _get_pages when
    response.text is read off None. -/
theorem c8_code_evaluation :
    c8site (some ("ch1".data)) = none ∧
    build_ilcs_index c8site rootPathLit = Except.error PyErr.attributeError :=
  ⟨rfl, rfl⟩

/-- C10, confirmed: a listing document on which no link entry survives (no
    pre block, no anchors, or only the parent-directory sentinel) makes
    _get_pages raise the KeyError of the label filter over the empty
    normalized frame, and one such listing aborts the whole crawl. -/
theorem c10_empty_listing :
    (∀ root : HNode, rawLinksOf root = [] →
      getPages (some root) = Except.error PyErr.keyError) ∧
    build_ilcs_index c10site rootPathLit = Except.error PyErr.keyError := by
  constructor
  · intro root h
    show framePages (rawLinksOf root) = Except.error PyErr.keyError
    rw [h]
    rfl
  · rfl

/-- C10 witness: the empty-listing theorem applied to the listing holding only
    the parent-directory anchor. -/
theorem c10_empty_listing_witness :
    rawLinksOf c10doc = [] ∧
    getPages (some c10doc) = Except.error PyErr.keyError :=
  ⟨rfl, c10_empty_listing.1 c10doc rfl⟩

/-! ## Lemmas about the statute line loop -/

theorem foldl_scanLine_eq (root : HNode) (raws : List (List Char)) :
    ∀ st : ScanSt, raws.foldl (scanLine root) st =
      ((raws.map pyStrip).filter (· ≠ [])).foldl (scanCore root) st := by
  induction raws with
  | nil => intro st; rfl
  | cons raw rest ih =>
    intro st
    by_cases h : pyStrip raw = [] <;>
      simp [scanLine, h, ih]

theorem scan_outLines (root : HNode) (raws : List (List Char)) :
    ∀ st : ScanSt, (raws.foldl (scanLine root) st).outLines =
      st.outLines ++ (capLines st.foundSection st.foundText raws).map (indentLine root) := by
  induction raws with
  | nil => intro st; simp [capLines]
  | cons raw rest ih =>
    intro st
    rw [List.foldl_cons, capLines]
    simp only [scanLine]
    by_cases h0 : pyStrip raw = []
    · rw [if_pos h0, if_pos h0, ih st]
    · rw [if_neg h0, if_neg h0]
      unfold scanCore
      by_cases h1 : (secTag.isPrefixOf (pyStrip raw) && !st.foundSection) = true
      · rw [if_pos h1, if_pos h1, ih]
      · rw [if_neg h1, if_neg h1]
        by_cases h2 : sourceTag.isPrefixOf (pyStrip raw) = true
        · rw [if_pos h2, if_pos h2, ih]
        · rw [if_neg h2, if_neg h2]
          by_cases h3 : st.foundText = true
          · rw [if_pos h3, if_pos h3, ih]
            simp
          · rw [if_neg h3, if_neg h3, ih]

theorem capLines_mem {raws : List (List Char)} :
    ∀ {fs ft : Bool} {x : List Char}, x ∈ capLines fs ft raws →
      ∃ raw ∈ raws, x = pyStrip raw := by
  induction raws with
  | nil => intro fs ft x hx; cases hx
  | cons raw rest ih =>
    intro fs ft x hx
    rw [capLines] at hx
    by_cases h0 : pyStrip raw = []
    · rw [if_pos h0] at hx
      obtain ⟨r, hr, hxr⟩ := ih hx
      exact ⟨r, List.mem_cons_of_mem _ hr, hxr⟩
    · rw [if_neg h0] at hx
      by_cases h1 : (secTag.isPrefixOf (pyStrip raw) && !fs) = true
      · rw [if_pos h1] at hx
        obtain ⟨r, hr, hxr⟩ := ih hx
        exact ⟨r, List.mem_cons_of_mem _ hr, hxr⟩
      · rw [if_neg h1] at hx
        by_cases h2 : sourceTag.isPrefixOf (pyStrip raw) = true
        · rw [if_pos h2] at hx
          obtain ⟨r, hr, hxr⟩ := ih hx
          exact ⟨r, List.mem_cons_of_mem _ hr, hxr⟩
        · rw [if_neg h2] at hx
          by_cases h3 : ft = true
          · rw [if_pos h3] at hx
            rcases List.mem_cons.mp hx with rfl | hx2
            · exact ⟨raw, List.mem_cons_self _ _, rfl⟩
            · obtain ⟨r, hr, hxr⟩ := ih hx2
              exact ⟨r, List.mem_cons_of_mem _ hr, hxr⟩
          · rw [if_neg h3] at hx
            obtain ⟨r, hr, hxr⟩ := ih hx
            exact ⟨r, List.mem_cons_of_mem _ hr, hxr⟩

theorem gatherLeading_eq_leadTextRun (ps : List HNode) :
    gatherLeading ps = leadTextRun ps := by
  induction ps with
  | nil => rfl
  | cons n rest ih =>
    cases n with
    | text s =>
      rw [gatherLeading, ih]
      simp [leadTextRun, isTextNode, textValOf, List.takeWhile_cons]
    | elem t a cs =>
      simp [gatherLeading, leadTextRun, isTextNode, List.takeWhile_cons]

theorem indentLine_suffix (root : HNode) (line : List Char) :
    line <:+ indentLine root line := by
  unfold indentLine
  split
  · exact ⟨_, rfl⟩
  · exact List.suffix_refl _

theorem mem_intercalateNl_head {c : Char} {x : List Char} {ls : List (List Char)}
    (h : c ∈ x) : c ∈ intercalateNl (x :: ls) := by
  cases ls with
  | nil => exact h
  | cons y ys =>
    rw [intercalateNl]
    exact List.mem_append_left _ h

theorem subFindAux_some_spec {sub : List Char} :
    ∀ {l : List Char} {i j : Nat}, subFindAux sub l i = some j →
      i ≤ j ∧ sub.isPrefixOf (l.drop (j - i)) = true ∧
        ∀ k < j - i, sub.isPrefixOf (l.drop k) = false := by
  intro l
  induction l with
  | nil =>
    intro i j h
    unfold subFindAux at h
    by_cases hp : sub.isPrefixOf ([] : List Char) = true
    · rw [if_pos hp] at h
      obtain rfl := Option.some_inj.mp h
      refine ⟨le_refl _, ?_, by omega⟩
      simpa using hp
    · rw [if_neg hp] at h
      cases h
  | cons c t ih =>
    intro i j h
    unfold subFindAux at h
    by_cases hp : sub.isPrefixOf (c :: t) = true
    · rw [if_pos hp] at h
      obtain rfl := Option.some_inj.mp h
      refine ⟨le_refl _, ?_, by omega⟩
      simpa using hp
    · rw [if_neg hp] at h
      obtain ⟨h1, h2, h3⟩ := ih h
      refine ⟨by omega, ?_, ?_⟩
      · have hstep : (c :: t).drop (j - i) = t.drop (j - (i + 1)) := by
          have hj : j - i = (j - (i + 1)) + 1 := by omega
          rw [hj, List.drop_succ_cons]
        rw [hstep]
        exact h2
      · intro k hk
        cases k with
        | zero =>
          rw [List.drop_zero]
          exact Bool.eq_false_iff.mpr (fun hh => hp hh)
        | succ k2 =>
          rw [List.drop_succ_cons]
          exact h3 k2 (by omega)

theorem afterFirstTok_decomp {sub s : List Char} (hne : sub ≠ [])
    (h : occursTok s sub = true) :
    ∃ pre, s = pre ++ sub ++ afterFirstTok sub s ∧
      ∀ i < pre.length, sub.isPrefixOf (s.drop i) = false := by
  unfold occursTok at h
  obtain ⟨j, hj⟩ := Option.isSome_iff_exists.mp h
  obtain ⟨-, h2, h3⟩ := subFindAux_some_spec hj
  rw [Nat.sub_zero] at h2 h3
  have hjlen : j ≤ s.length := by
    by_contra hgt
    rw [List.drop_eq_nil_of_le (by omega)] at h2
    have : sub = [] := by
      cases sub with
      | nil => rfl
      | cons a as => simp [List.isPrefixOf] at h2
    exact hne this
  refine ⟨s.take j, ?_, ?_⟩
  · obtain ⟨t2, ht2⟩ := List.isPrefixOf_iff_prefix.mp h2
    have hdropj : s.drop j = sub ++ t2 := ht2.symm
    have ht2eq : t2 = afterFirstTok sub s := by
      unfold afterFirstTok
      rw [hj]
      have := congrArg (List.drop sub.length) hdropj
      rw [List.drop_left, List.drop_drop] at this
      rw [← this]
    rw [← ht2eq, List.append_assoc, ← hdropj, List.take_append_drop]
  · intro i hi
    rw [List.length_take] at hi
    exact h3 i (by omega)

/-- C2 counterexample: in this document the line foo is a text node directly
    preceded, within its parent, by a fragment of two non-breaking spaces, so
    the claim prescribes two leading spaces for it; the source instead walks
    the previous siblings of the node's parent (which start with an element),
    and foo is emitted with no indentation. -/
theorem c2_counterexample :
    (parseStatuteDoc c2doc).statute_text = "bar\nfoo".data ∧
    claimIndentCount c2doc ("foo".data) = some 2 ∧
    "foo".data ∈ splitNl ((parseStatuteDoc c2doc).statute_text) ∧
    ¬ (spacesN 2 ++ "foo".data) ∈ splitNl ((parseStatuteDoc c2doc).statute_text) := by
  refine ⟨rfl, rfl, by decide, by decide⟩

/-- C2, corrected claim.  Each captured body line is emitted as the
    indentation prefix computed by indentLine: when the first text fragment
    containing the line is found, the walk gathers the contiguous run of raw
    text-fragment previous siblings OF THAT FRAGMENT'S PARENT ELEMENT (not of
    the fragment itself), stopped at the first non-text sibling and read in
    document order; non-breaking spaces are translated to spaces and the
    space count gives the number of prefixed spaces.  A line with no matching
    fragment is emitted with no indentation. -/
theorem c2_amended :
    (∀ root : HNode, (scanResultOf root).outLines =
      (capLines false false (splitNl (processedTextOf root))).map (indentLine root)) ∧
    (∀ (root : HNode) (line : List Char) (ps : List HNode),
      findPPList (fun s => occursTok s line) [] [] (childrenOf root) = some ps →
      indentLine root line = spacesN ((replaceNbsp (leadTextRun ps)).count ' ') ++ line) ∧
    (∀ (root : HNode) (line : List Char),
      findPPList (fun s => occursTok s line) [] [] (childrenOf root) = none →
      indentLine root line = line) := by
  refine ⟨?_, ?_, ?_⟩
  · intro root
    unfold scanResultOf
    rw [scan_outLines]
    simp [initScan]
  · intro root line ps h
    unfold indentLine
    rw [h]
    show spacesN ((replaceNbsp (gatherLeading ps)).count ' ') ++ line = _
    rw [gatherLeading_eq_leadTextRun]
  · intro root line h
    unfold indentLine
    rw [h]

/-- C2 witness: in the witness document the line beta is wrapped in a span
    whose previous sibling is a fragment of two non-breaking spaces; the walk
    finds it and beta is emitted with exactly two leading spaces. -/
theorem c2_amended_witness :
    findPPList (fun s => occursTok s ("beta".data)) [] [] (childrenOf w2doc) =
      some [HNode.text nbsp2] ∧
    indentLine w2doc ("beta".data) = ' ' :: ' ' :: "beta".data ∧
    (parseStatuteDoc w2doc).statute_text = "alpha\n  beta".data :=
  ⟨rfl, c2_amended.2.1 w2doc ("beta".data) [HNode.text nbsp2] rfl, rfl⟩

/-- C3 counterexample: the post-amendment line foo also occurs before the
    marker; the text-node lookup searches the whole document, matches the
    pre-marker occurrence first, and emits foo with no indentation (the
    post-marker occurrence sits behind two non-breaking spaces), so
    statute_text contains a line that precedes the marker. -/
theorem c3_counterexample :
    (parseStatuteDoc c3doc).amended_statute = true ∧
    (parseStatuteDoc c3doc).statute_text = "bar\nfoo".data ∧
    "foo".data ∈ splitNl (preMarkerTextOf c3doc) ∧
    "foo".data ∈ splitNl ((parseStatuteDoc c3doc).statute_text) ∧
    claimIndentCount c3doc ("foo".data) = some 0 := by
  refine ⟨rfl, rfl, by decide, by decide, rfl⟩

/-- C3, corrected claim.  amended_statute is true exactly when the flattened
    body text contains the amendment marker; the line scanning (section
    detection, source capture, body capture) then runs only on the text after
    the first marker occurrence; but the indentation text-node lookup searches
    the whole document, pre-marker nodes included, and a line value occurring
    both before and after the marker can therefore reach statute_text with the
    pre-marker node's indentation. -/
theorem c3_amended :
    (∀ root : HNode,
      (parseStatuteDoc root).amended_statute = occursTok (allTextOf root) amendMarker) ∧
    (∀ root : HNode, occursTok (allTextOf root) amendMarker = true →
      ∃ pre, allTextOf root = pre ++ amendMarker ++ processedTextOf root ∧
        ∀ i < pre.length, amendMarker.isPrefixOf ((allTextOf root).drop i) = false) ∧
    (∀ (root : HNode) (l : List Char), l ∈ (scanResultOf root).outLines →
      ∃ raw ∈ splitNl (processedTextOf root), l = indentLine root (pyStrip raw)) := by
  refine ⟨?_, ?_, ?_⟩
  · intro root
    rfl
  · intro root h
    have hdec := afterFirstTok_decomp (show amendMarker ≠ [] by decide) h
    obtain ⟨pre, hpre, hfirst⟩ := hdec
    refine ⟨pre, ?_, hfirst⟩
    unfold processedTextOf
    rw [if_pos h]
    exact hpre
  · intro root l hl
    unfold scanResultOf at hl
    rw [scan_outLines] at hl
    simp only [initScan, List.nil_append] at hl
    obtain ⟨x, hx, rfl⟩ := List.mem_map.mp hl
    obtain ⟨raw, hraw, rfl⟩ := capLines_mem hx
    exact ⟨raw, hraw, rfl⟩

/-- C3 witness: the amended theorem applied to the amended counterexample
    document, whose text contains the marker. -/
theorem c3_amended_witness :
    occursTok (allTextOf c3doc) amendMarker = true ∧
    (∃ pre, allTextOf c3doc = pre ++ amendMarker ++ processedTextOf c3doc ∧
      ∀ i < pre.length, amendMarker.isPrefixOf ((allTextOf c3doc).drop i) = false) ∧
    (parseStatuteDoc c3doc).amended_statute = occursTok (allTextOf c3doc) amendMarker :=
  ⟨by decide, c3_amended.2.1 c3doc (by decide), c3_amended.1 c3doc⟩

/-! ## Lemmas about the scan state machine over a decomposed line list -/

theorem scanCore_pre (root : HNode) (pre : List (List Char)) :
    ∀ st : ScanSt, st.foundSection = false → st.foundText = false →
      (∀ l ∈ pre, secTag.isPrefixOf l = false) →
      (pre.foldl (scanCore root) st).foundSection = false ∧
      (pre.foldl (scanCore root) st).foundText = false ∧
      (pre.foldl (scanCore root) st).sectionNumber = st.sectionNumber ∧
      (pre.foldl (scanCore root) st).outLines = st.outLines := by
  induction pre with
  | nil => intro st h1 h2 _; exact ⟨h1, h2, rfl, rfl⟩
  | cons l rest ih =>
    intro st h1 h2 hall
    rw [List.foldl_cons]
    have hsec : secTag.isPrefixOf l = false := hall l (List.mem_cons_self _ _)
    by_cases h2src : sourceTag.isPrefixOf l = true
    · have hstep : scanCore root st l = { st with source := some l, foundText := false } := by
        unfold scanCore
        rw [if_neg (by simp [hsec]), if_pos h2src]
      rw [hstep]
      have := ih ({ st with source := some l, foundText := false })
        (by simpa using h1) (by simp)
        (fun x hx => hall x (List.mem_cons_of_mem _ hx))
      simpa using this
    · have hstep : scanCore root st l = st := by
        unfold scanCore
        rw [if_neg (by simp [hsec]), if_neg h2src, if_neg (by simp [h2])]
      rw [hstep]
      exact ih st h1 h2 (fun x hx => hall x (List.mem_cons_of_mem _ hx))

theorem scanCore_body (root : HNode) (body : List (List Char)) :
    ∀ st : ScanSt, st.foundSection = true → st.foundText = true →
      (∀ b ∈ body, sourceTag.isPrefixOf b = false) →
      body.foldl (scanCore root) st =
        { st with outLines := st.outLines ++ body.map (indentLine root) } := by
  induction body with
  | nil => intro st _ _ _; simp
  | cons b rest ih =>
    intro st h1 h2 hall
    rw [List.foldl_cons]
    have hstep : scanCore root st b =
        { st with outLines := st.outLines ++ [indentLine root b] } := by
      unfold scanCore
      rw [if_neg (by simp [h1]), if_neg (by simp [hall b (List.mem_cons_self _ _)]),
        if_pos h2]
    rw [hstep]
    rw [ih _ (by simp [h1]) (by simp [h2]) (fun x hx => hall x (List.mem_cons_of_mem _ hx))]
    simp

theorem scanCore_post (root : HNode) (post : List (List Char)) :
    ∀ st : ScanSt, st.foundSection = true → st.foundText = false →
      (∀ l ∈ post, sourceTag.isPrefixOf l = false) →
      post.foldl (scanCore root) st = st := by
  induction post with
  | nil => intro st _ _ _; rfl
  | cons l rest ih =>
    intro st h1 h2 hall
    rw [List.foldl_cons]
    have hstep : scanCore root st l = st := by
      unfold scanCore
      rw [if_neg (by simp [h1]), if_neg (by simp [hall l (List.mem_cons_self _ _)]),
        if_neg (by simp [h2])]
    rw [hstep]
    exact ih st h1 h2 (fun x hx => hall x (List.mem_cons_of_mem _ hx))

theorem mem_strippedLines {root : HNode} {l : List Char}
    (h : l ∈ strippedLinesOf root) : pyStrip l = l ∧ l ≠ [] := by
  unfold strippedLinesOf at h
  obtain ⟨hmem, hne⟩ := List.mem_filter.mp h
  obtain ⟨raw, -, rfl⟩ := List.mem_map.mp hmem
  exact ⟨pyStrip_idem raw, by simpa using hne⟩

/-- C4 counterexample: the flattened body matches the claim's shape (a
    Sec. 1. Short title. line, a body line, then a Source line), yet a second
    Source line further down is not discarded: it overwrites the source field,
    so the returned source is not the Source line of the pattern. -/
theorem c4_counterexample :
    strippedLinesOf c4doc =
      ["Sec. 1. Short title.".data, "Hello.".data, srcLineA, srcLineB] ∧
    srcLineA = sourceTag ++ " A.)".data ∧
    (parseStatuteDoc c4doc).statute_text = "Hello.".data ∧
    (parseStatuteDoc c4doc).source = some srcLineB ∧
    srcLineB ≠ srcLineA := by
  refine ⟨by decide, by decide, rfl, rfl, by decide⟩

/-- C4, corrected claim.  For a statute document whose stripped non-empty
    lines decompose as pre lines (none starting with Sec.), the line
    Sec. 1. Short title., body lines (none starting with the Source tag, and
    at least one), one Source line, and post lines none of which starts with
    the Source tag, the parser returns section number 1. Short title., the
    Source line verbatim, and a non-empty statute_text that is exactly the
    indented body lines joined and stripped; every body line survives as a
    suffix of its emitted line and no emitted line equals the source line.
    The original claim, quantified over documents merely containing the
    pattern, fails when a second Source line follows (see the counterexample),
    so the no-later-Source-line conditions are added. -/
theorem c4_amended (root : HNode) (pre body post : List (List Char)) (srcRest : List Char)
    (hdecomp : strippedLinesOf root =
      pre ++ ("Sec. 1. Short title.".data :: (body ++ ((sourceTag ++ srcRest) :: post))))
    (hpre : ∀ l ∈ pre, secTag.isPrefixOf l = false)
    (hbody : ∀ b ∈ body, sourceTag.isPrefixOf b = false)
    (hpost : ∀ l ∈ post, sourceTag.isPrefixOf l = false)
    (hbne : body ≠ []) :
    (parseStatuteDoc root).section_number = some ("1. Short title.".data) ∧
    (parseStatuteDoc root).source = some (sourceTag ++ srcRest) ∧
    (parseStatuteDoc root).statute_text =
      pyStrip (intercalateNl (body.map (indentLine root))) ∧
    (parseStatuteDoc root).statute_text ≠ [] ∧
    (∀ b ∈ body, ∃ l ∈ body.map (indentLine root), b <:+ l) ∧
    (∀ l ∈ body.map (indentLine root), l ≠ sourceTag ++ srcRest) := by
  have hscan : scanResultOf root = (strippedLinesOf root).foldl (scanCore root) initScan := by
    unfold scanResultOf strippedLinesOf
    exact foldl_scanLine_eq root _ initScan
  rw [hdecomp, List.foldl_append, List.foldl_cons] at hscan
  obtain ⟨hp1, hp2, hp3, hp4⟩ := scanCore_pre root pre initScan rfl rfl hpre
  have hsec : ∀ st1 : ScanSt, st1.foundSection = false →
      scanCore root st1 ("Sec. 1. Short title.".data) =
      { st1 with
        sectionNumber := some ("1. Short title.".data),
        foundSection := true, foundText := true } := by
    intro st1 hfs
    unfold scanCore
    rw [if_pos (by rw [hfs]; decide),
      show secNumOf ("Sec. 1. Short title.".data) = "1. Short title.".data from by decide]
  rw [hsec _ hp1, List.foldl_append] at hscan
  rw [scanCore_body root body _ (by simp) (by simp) hbody] at hscan
  have hsrcCond1 : secTag.isPrefixOf (sourceTag ++ srcRest) = false := by
    show List.isPrefixOf ['S', 'e', 'c', '.'] ('(' :: ("Source:".data ++ srcRest)) = false
    simp [List.isPrefixOf]
  rw [List.foldl_cons] at hscan
  have hsrc : ∀ st3 : ScanSt, scanCore root st3 (sourceTag ++ srcRest) =
      { st3 with source := some (sourceTag ++ srcRest), foundText := false } := by
    intro st3
    unfold scanCore
    rw [if_neg (by simp [hsrcCond1]), if_pos (isPrefixOf_append_self _ _)]
  rw [hsrc, scanCore_post root post _ (by simp) (by simp) hpost] at hscan
  have hsecnum : (scanResultOf root).sectionNumber = some ("1. Short title.".data) := by
    rw [hscan]
  have hsource : (scanResultOf root).source = some (sourceTag ++ srcRest) := by
    rw [hscan]
  have hp4b : (pre.foldl (scanCore root) initScan).outLines = [] := by
    rw [hp4]
    rfl
  have houtlines : (scanResultOf root).outLines = body.map (indentLine root) := by
    rw [hscan]
    simp [hp4b]
  refine ⟨hsecnum, hsource, ?_, ?_, ?_, ?_⟩
  · show pyStrip (intercalateNl (scanResultOf root).outLines) = _
    rw [houtlines]
  · show pyStrip (intercalateNl (scanResultOf root).outLines) ≠ []
    rw [houtlines]
    cases body with
    | nil => exact absurd rfl hbne
    | cons b1 brest =>
      have hb1mem : b1 ∈ strippedLinesOf root := by
        rw [hdecomp]
        simp
      obtain ⟨hb1strip, hb1ne⟩ := mem_strippedLines hb1mem
      obtain ⟨c, hc, hcns⟩ := exists_nonspace_of_pyStrip_self hb1strip hb1ne
      have hcin : c ∈ indentLine root b1 := by
        obtain ⟨w, hw⟩ := indentLine_suffix root b1
        rw [← hw]
        exact List.mem_append_right _ hc
      have hcjoin : c ∈ intercalateNl ((b1 :: brest).map (indentLine root)) := by
        rw [List.map_cons]
        exact mem_intercalateNl_head hcin
      exact pyStrip_ne_nil hcjoin hcns
  · intro b hb
    exact ⟨indentLine root b, List.mem_map_of_mem _ hb, indentLine_suffix root b⟩
  · intro l hl
    obtain ⟨b, hb, rfl⟩ := List.mem_map.mp hl
    intro heq
    obtain ⟨n, hn⟩ : ∃ n, indentLine root b = spacesN n ++ b := by
      unfold indentLine
      split
      · exact ⟨_, rfl⟩
      · exact ⟨0, rfl⟩
    rw [hn] at heq
    cases n with
    | zero =>
      have hb2 : b = sourceTag ++ srcRest := heq
      have : sourceTag.isPrefixOf b = true := by
        rw [hb2]
        exact isPrefixOf_append_self _ _
      rw [hbody b hb] at this
      cases this
    | succ n2 =>
      have h2 : (' ' :: (spacesN n2 ++ b)) = '(' :: ("Source:".data ++ srcRest) := heq
      simp at h2

/-- C4 witness: the amended theorem applied to the well-formed statute
    document, with one junk line before the section line, one body line, one
    Source line and nothing after. -/
theorem c4_amended_witness :
    strippedLinesOf c4wdoc =
      ["junk".data] ++ ("Sec. 1. Short title.".data ::
        (["Hello.".data] ++ ((sourceTag ++ " P.A. 90-655.)".data) :: []))) ∧
    (parseStatuteDoc c4wdoc).section_number = some ("1. Short title.".data) ∧
    (parseStatuteDoc c4wdoc).source = some (sourceTag ++ " P.A. 90-655.)".data) ∧
    (parseStatuteDoc c4wdoc).statute_text ≠ [] :=
  ⟨by decide,
   (c4_amended c4wdoc ["junk".data] ["Hello.".data] [] (" P.A. 90-655.)".data)
     (by decide) (by decide) (by decide) (by decide) (by decide)).1,
   (c4_amended c4wdoc ["junk".data] ["Hello.".data] [] (" P.A. 90-655.)".data)
     (by decide) (by decide) (by decide) (by decide) (by decide)).2.1,
   (c4_amended c4wdoc ["junk".data] ["Hello.".data] [] (" P.A. 90-655.)".data)
     (by decide) (by decide) (by decide) (by decide) (by decide)).2.2.2.1⟩

/-- C9 counterexample: with no justified div the data dict stays empty, so
    the returned record carries no fields at all; looking a field key up gives
    nothing, which is not a present-but-null field. -/
theorem c9_counterexample :
    findJustifyDiv actNoDivDoc = none ∧
    parseActDoc actNoDivDoc = [] ∧
    (parseActDoc actNoDivDoc).lookup keyIlcsCode = none ∧
    (parseActDoc actNoDivDoc).lookup keyCite ≠ some none := by
  refine ⟨rfl, rfl, rfl, by decide⟩

/-- C9, corrected claim.  parse_act_page raises nothing: with the justified
    div present the record carries all six keys, each holding the value of
    its extraction pattern, and a label pattern that occurs nowhere in the
    text yields a null value; with no justified div the returned record has
    NO fields at all (an empty dict giving a one-row, zero-column frame), not
    six null fields. -/
theorem c9_amended :
    (∀ root : HNode, findJustifyDiv root = none → parseActDoc root = []) ∧
    (∀ (root : HNode) (d : HNode), findJustifyDiv root = some d →
      parseActDoc root =
        [(keyIlcsCode, codeExtract (getTextNl d)),
         (keyActTitle, actTitleSearch (getTextNl d)),
         (keyTitleDesc, titleDescExtract (getTextNl d)),
         (keyCite, labelLineExtract citeLit (getTextNl d)),
         (keySource, labelLineExtract sourceLit (getTextNl d)),
         (keyShortTitle, labelLineExtract shortTitleLit (getTextNl d))]) ∧
    (∀ lit t : List Char, occursTok t lit = false → labelLineExtract lit t = none) ∧
    (∀ t : List Char, occursTok t titleLit = false → titleDescExtract t = none) := by
  refine ⟨?_, ?_, ?_, ?_⟩
  · intro root h
    unfold parseActDoc
    rw [h]
  · intro root d h
    unfold parseActDoc
    rw [h]
  · intro lit t h
    unfold labelLineExtract
    rw [subFindAux_eq_none_of_occurs_false h]
  · intro t h
    unfold titleDescExtract
    rw [subFindAux_eq_none_of_occurs_false h]

/-- C9 witness: the amended theorem applied to the div-less page and to a page
    whose div text carries two leading groups and a Cite line but no Source
    label, whose field therefore comes back null. -/
theorem c9_amended_witness :
    parseActDoc actNoDivDoc = [] ∧
    parseActDoc actWitDoc =
      [(keyIlcsCode, codeExtract (getTextNl actWitDiv)),
       (keyActTitle, actTitleSearch (getTextNl actWitDiv)),
       (keyTitleDesc, titleDescExtract (getTextNl actWitDiv)),
       (keyCite, labelLineExtract citeLit (getTextNl actWitDiv)),
       (keySource, labelLineExtract sourceLit (getTextNl actWitDiv)),
       (keyShortTitle, labelLineExtract shortTitleLit (getTextNl actWitDiv))] ∧
    occursTok (getTextNl actWitDiv) sourceLit = false ∧
    labelLineExtract sourceLit (getTextNl actWitDiv) = none :=
  ⟨c9_amended.1 actNoDivDoc rfl,
   c9_amended.2.1 actWitDoc actWitDiv rfl,
   by decide,
   c9_amended.2.2.1 sourceLit (getTextNl actWitDiv) (by decide)⟩

end IlcsScrape
